import Mathlib

/-!
Verification of the file-summarization pipeline: extension classification,
directory scanning with per-file failure isolation, aggregation with word
accounting, and the compression planner.

The embedding follows the module sources (`file_processor.rs`, `summary.rs`,
`config.rs`); the historical standalone variant in `main.rs` duplicates the
same logic.  Machine integers (`usize`, `u8`) are modelled by `ℕ`; the `f64`
arithmetic inside `target_words` is modelled exactly over `ℚ` (it is exact for
every realistic word count); Rust `Result` is modelled by `Except`; Unicode
case folding and whitespace are modelled at ASCII granularity, which covers
every extension and delimiter the program distinguishes.
-/

/-- The file-type strategies, from `enum FileType` in `file_processor.rs`. -/
inductive FileType where
  | Text
  | Pdf
  | Image
deriving DecidableEq, Repr

/-- `TEXT_EXTENSIONS` from `file_processor.rs` (the same list is inlined in
`classify_file` in `main.rs`). -/
def TEXT_EXTENSIONS : List String :=
  ["txt", "md", "rs", "toml", "yaml", "yml", "json", "csv", "log", "cfg",
   "ini", "xml", "html", "css", "js", "ts", "py", "sh", "bat", "c", "cpp",
   "h", "hpp", "java", "go", "rb", "php", "sql", "r", "swift", "kt",
   "scala", "tex", "rtf"]

/-- `IMAGE_EXTENSIONS` from `file_processor.rs`. -/
def IMAGE_EXTENSIONS : List String :=
  ["jpg", "jpeg", "png", "webp", "gif", "bmp", "tiff", "tif"]

/-- `classify_file` from `file_processor.rs`: exact match `"pdf"`, then the
image set, then the text set, else unsupported. -/
def classify_file (ext : String) : Option FileType :=
  if ext = "pdf" then some FileType.Pdf
  else if ext ∈ IMAGE_EXTENSIONS then some FileType.Image
  else if ext ∈ TEXT_EXTENSIONS then some FileType.Text
  else none

/-- Rust `str::to_lowercase`, modelled character-wise at ASCII granularity
(the only case distinction the extension sets exercise). -/
def to_lowercase (s : String) : String :=
  String.mk (s.data.map Char.toLower)

/-- Classification as invoked by the scanner: `read_all_files` lowercases the
extension (`e.to_lowercase()`) before calling `classify_file`. -/
def classify_normalized (ext : String) : Option FileType :=
  classify_file (to_lowercase ext)

/-- A processed file (`struct ProcessedFile` in `file_processor.rs`):
name plus extracted content. -/
structure ProcessedFile where
  name : String
  content : String
deriving DecidableEq, Repr

/-- Whitespace-delimited token count, modelling Rust
`str::split_whitespace().count()`: split on runs of whitespace and keep the
non-empty tokens. -/
def countWords (s : String) : ℕ :=
  ((s.split Char.isWhitespace).filter (fun t => ¬ t.isEmpty)).length

/-- One labeled block of the combined document, as produced by
`write!(combined, "=== File: \x7b\x7d ===\n\x7b\x7d\n\n", file.name, file.content)`
in `SummaryInput::from_files`. -/
def fileBlock (f : ProcessedFile) : String :=
  "=== File: " ++ f.name ++ " ===\n" ++ f.content ++ "\n\n"

/-- `struct SummaryInput` from `summary.rs`. -/
structure SummaryInput where
  combined_text : String
  total_words : ℕ
  file_count : ℕ
deriving DecidableEq, Repr

/-- `SummaryInput::from_files`: one pass over the files, appending a labeled
block per file and accumulating the word count. -/
def SummaryInput.from_files (files : List ProcessedFile) : SummaryInput :=
  { combined_text := files.foldl (fun acc f => acc ++ fileBlock f) ""
    total_words := files.foldl (fun acc f => acc + countWords f.content) 0
    file_count := files.length }

/-- `SummaryInput::target_words`:
`((total_words as f64 * pct as f64 / 100.0).ceil() as usize).max(50)`,
with the exact rational ceiling `(t·p + 99) / 100` standing for the `f64`
computation. -/
def SummaryInput.target_words (si : SummaryInput) (compress_pct : ℕ) : ℕ :=
  ((si.total_words * compress_pct + 99) / 100).max 50

/-- `struct Config` from `config.rs`. -/
structure Config where
  files_directory : String
  compress_summary : ℕ
  ocr_model : String
  summary_model : String
  output_path : String
  log_file : String
deriving DecidableEq, Repr

/-- `Config::compress_percent`: `self.compress_summary.clamp(1, 100)`. -/
def Config.compress_percent (c : Config) : ℕ :=
  min (max c.compress_summary 1) 100

/-- A directory entry as seen by the scanner: the final path component and
whether the entry is a regular file (`Path::is_file`). -/
structure DirEntry where
  file_name : String
  is_file : Bool
deriving DecidableEq, Repr

/-- Rust `Path::extension` on a final path component: `none` when the name
contains no `.` or its only `.` is the leading character; otherwise the
portion after the final `.`. -/
def pathExtension (file_name : String) : Option String :=
  let cs := file_name.data
  if cs.contains '.' then
    let extRev := cs.reverse.takeWhile (fun c => c ≠ '.')
    if extRev.length + 1 = cs.length then none
    else some (String.mk extRev.reverse)
  else none

/-- The per-entry body of the scanner loop in `read_all_files`
(`file_processor.rs`): skip non-files and extension-less names, classify the
lowercased extension, dispatch to the matching extractor, and on any
extraction failure skip the file (`continue`).  The extractor outcomes
(`fs::read_to_string`, `process_pdf`, `process_image`) are abstracted into
the oracle `extract`. -/
def processEntry (extract : FileType → String → Except String String)
    (e : DirEntry) : Option ProcessedFile :=
  if e.is_file then
    match pathExtension e.file_name with
    | none => none
    | some ext0 =>
      match classify_file (to_lowercase ext0) with
      | none => none
      | some ft =>
        match extract ft e.file_name with
        | Except.ok c => some { name := e.file_name, content := c }
        | Except.error _ => none
  else none

/-- `entries.sort_by_key(|e| e.file_name())` in `read_all_files` (Rust's
stable sort, modelled by stable `mergeSort` on the filename order). -/
def sortEntries (entries : List DirEntry) : List DirEntry :=
  entries.mergeSort (fun a b => decide (a.file_name ≤ b.file_name))

/-- `read_all_files` from `file_processor.rs`: fail fast when the directory
does not exist, otherwise process the name-sorted entries, keeping the
successful extractions in order. -/
def read_all_files (dir : String) (dirExists : Bool) (entries : List DirEntry)
    (extract : FileType → String → Except String String) :
    Except String (List ProcessedFile) :=
  if dirExists then
    Except.ok ((sortEntries entries).filterMap (processEntry extract))
  else
    Except.error ("Directory " ++ dir ++ " does not exist")

-- ---------------------------------------------------------------------------
-- Helper lemmas
-- ---------------------------------------------------------------------------

/-- The exact rational ceiling of `x / 100` agrees with the natural-number
ceiling division `(x + 99) / 100`. -/
lemma add_99_div_100_eq_ceil (x : ℕ) :
    (x + 99) / 100 = ⌈(x : ℚ) / 100⌉₊ := by
  apply le_antisymm
  · have h1 : ((x : ℚ)) / 100 ≤ (⌈(x : ℚ) / 100⌉₊ : ℚ) := Nat.le_ceil _
    rw [div_le_iff₀ (by norm_num : (0:ℚ) < 100)] at h1
    have h3 : x ≤ ⌈(x : ℚ) / 100⌉₊ * 100 := by exact_mod_cast h1
    omega
  · rw [Nat.ceil_le, div_le_iff₀ (by norm_num : (0:ℚ) < 100)]
    have h : x ≤ ((x + 99) / 100) * 100 := by omega
    exact_mod_cast h

lemma foldl_append_eq (g : ProcessedFile → String) :
    ∀ (l : List ProcessedFile) (s : String),
      l.foldl (fun acc f => acc ++ g f) s = s ++ (l.map g).foldr (· ++ ·) "" := by
  intro l
  induction l with
  | nil => intro s; simp
  | cons x t ih =>
    intro s
    simp only [List.foldl_cons, List.foldr_cons, List.map_cons, ih,
      String.append_assoc]

lemma foldl_add_eq (g : ProcessedFile → ℕ) :
    ∀ (l : List ProcessedFile) (n : ℕ),
      l.foldl (fun acc f => acc + g f) n = n + (l.map g).sum := by
  intro l
  induction l with
  | nil => intro n; simp
  | cons x t ih =>
    intro n
    simp only [List.foldl_cons, List.map_cons, List.sum_cons, ih]
    omega

-- ---------------------------------------------------------------------------
-- Claim theorems
-- ---------------------------------------------------------------------------

/-- Claim C1: for every total word count and every percent, the planner
returns `max(50, ceil(total_words * percent / 100))`; in particular a zero
word count yields 50 for any percent, 1000 words at 25 percent yield 250, and
999 words at 25 percent yield 250 (ceiling rounding). -/
theorem target_words_eq_max_ceil :
    (∀ (si : SummaryInput) (p : ℕ),
      si.target_words p = Nat.max 50 ⌈((si.total_words * p : ℕ) : ℚ) / 100⌉₊) ∧
    (∀ (c : String) (fc p : ℕ), (SummaryInput.mk c 0 fc).target_words p = 50) ∧
    (∀ (c : String) (fc : ℕ), (SummaryInput.mk c 1000 fc).target_words 25 = 250) ∧
    (∀ (c : String) (fc : ℕ), (SummaryInput.mk c 999 fc).target_words 25 = 250) := by
  refine ⟨?_, ?_, ?_, ?_⟩
  · intro si p
    rw [SummaryInput.target_words, add_99_div_100_eq_ceil]
    exact Nat.max_comm _ _
  · intro c fc p
    simp [SummaryInput.target_words]
  · intro c fc
    norm_num [SummaryInput.target_words]
  · intro c fc
    norm_num [SummaryInput.target_words]

/-- Claim C2: the aggregator output has `total_words` equal to the sum of the
whitespace-token counts of the files, `combined_text` equal to the in-order
concatenation of one labeled block per file, and `file_count` equal to the
number of files. -/
theorem from_files_spec (files : List ProcessedFile) :
    (SummaryInput.from_files files).combined_text
        = (files.map fileBlock).foldr (· ++ ·) "" ∧
    (SummaryInput.from_files files).total_words
        = (files.map (fun f => countWords f.content)).sum ∧
    (SummaryInput.from_files files).file_count = files.length := by
  refine ⟨?_, ?_, rfl⟩
  · show files.foldl (fun acc f => acc ++ fileBlock f) "" = _
    rw [foldl_append_eq]
    simp
  · show files.foldl (fun acc f => acc + countWords f.content) 0 = _
    rw [foldl_add_eq]
    omega

/-- Claim C5: `"pdf"` classifies as the PDF strategy, every image extension
as the image strategy, every text extension as the text strategy, and every
other extension is unsupported. -/
theorem classify_file_cases :
    classify_file "pdf" = some FileType.Pdf ∧
    (∀ e ∈ IMAGE_EXTENSIONS, classify_file e = some FileType.Image) ∧
    (∀ e ∈ TEXT_EXTENSIONS, classify_file e = some FileType.Text) ∧
    (∀ e : String, e ≠ "pdf" → e ∉ IMAGE_EXTENSIONS → e ∉ TEXT_EXTENSIONS →
      classify_file e = none) := by
  refine ⟨rfl, by decide, by decide, ?_⟩
  intro e h1 h2 h3
  simp [classify_file, h1, h2, h3]

theorem classify_file_cases_witness :
    classify_file "pdf" = some FileType.Pdf ∧
    classify_file "png" = some FileType.Image ∧
    classify_file "md" = some FileType.Text ∧
    classify_file "exe" = none :=
  ⟨classify_file_cases.1,
   classify_file_cases.2.1 "png" (by decide),
   classify_file_cases.2.2.1 "md" (by decide),
   classify_file_cases.2.2.2 "exe" (by decide) (by decide) (by decide)⟩

/-- Claim C6: classification is case-insensitive — two extensions with the
same lowercase form classify identically, and in particular `"PDF"`
classifies like `"pdf"`, as the PDF strategy. -/
theorem classify_case_insensitive :
    (∀ s t : String, to_lowercase s = to_lowercase t →
      classify_normalized s = classify_normalized t) ∧
    classify_normalized "PDF" = classify_normalized "pdf" ∧
    classify_normalized "PDF" = some FileType.Pdf := by
  have key : ∀ s t : String, to_lowercase s = to_lowercase t →
      classify_normalized s = classify_normalized t := by
    intro s t h
    simp [classify_normalized, h]
  exact ⟨key, key "PDF" "pdf" (by decide), by decide⟩

theorem classify_case_insensitive_witness :
    classify_normalized "Md" = classify_normalized "mD" :=
  classify_case_insensitive.1 "Md" "mD" (by decide)

/-- Claim C7: for a fixed total word count the planned target word count is
monotonic non-decreasing in the percent. -/
theorem target_words_monotone (si : SummaryInput) (p₁ p₂ : ℕ) (h : p₁ ≤ p₂) :
    si.target_words p₁ ≤ si.target_words p₂ := by
  have hm : si.total_words * p₁ ≤ si.total_words * p₂ :=
    Nat.mul_le_mul_left _ h
  exact max_le_max (Nat.div_le_div_right (by omega)) le_rfl

theorem target_words_monotone_witness :
    (10 : ℕ) ≤ 20 ∧
    (SummaryInput.mk "" 1000 1).target_words 10
      ≤ (SummaryInput.mk "" 1000 1).target_words 20 :=
  ⟨by decide, target_words_monotone (SummaryInput.mk "" 1000 1) 10 20 (by decide)⟩

/-- Claim C8: the configured compression percentage is clamped to `[1, 100]`
before planning: 150 becomes 100, 0 becomes 1, and any value already in
`[1, 100]` is unchanged; the result always lies in `[1, 100]`. -/
theorem compress_percent_clamps (cfg : Config) :
    (1 ≤ cfg.compress_percent ∧ cfg.compress_percent ≤ 100) ∧
    (1 ≤ cfg.compress_summary → cfg.compress_summary ≤ 100 →
      cfg.compress_percent = cfg.compress_summary) ∧
    (cfg.compress_summary = 150 → cfg.compress_percent = 100) ∧
    (cfg.compress_summary = 0 → cfg.compress_percent = 1) := by
  unfold Config.compress_percent
  omega

theorem compress_percent_clamps_witness :
    (Config.mk "d" 150 "o" "s" "out" "log").compress_percent = 100 ∧
    (Config.mk "d" 0 "o" "s" "out" "log").compress_percent = 1 ∧
    (Config.mk "d" 42 "o" "s" "out" "log").compress_percent = 42 :=
  ⟨(compress_percent_clamps _).2.2.1 rfl,
   (compress_percent_clamps _).2.2.2 rfl,
   (compress_percent_clamps _).2.1 (by decide) (by decide)⟩

/-- Claim C10: aggregating no files yields empty combined text, zero total
words and zero file count, and the planned target is then 50 for any
percent. -/
theorem from_files_empty :
    (SummaryInput.from_files []).combined_text = "" ∧
    (SummaryInput.from_files []).total_words = 0 ∧
    (SummaryInput.from_files []).file_count = 0 ∧
    (∀ p : ℕ, (SummaryInput.from_files []).target_words p = 50) := by
  refine ⟨rfl, rfl, rfl, ?_⟩
  intro p
  simp [SummaryInput.from_files, SummaryInput.target_words]

-- ---------------------------------------------------------------------------
-- Scanner lemmas
-- ---------------------------------------------------------------------------

lemma processEntry_some (extract : FileType → String → Except String String)
    (e : DirEntry) (pf : ProcessedFile)
    (h : processEntry extract e = some pf) :
    e.is_file = true ∧ pf.name = e.file_name := by
  unfold processEntry at h
  split at h
  case isTrue hf =>
    split at h
    · cases h
    · split at h
      · cases h
      · split at h
        · cases h
          exact ⟨hf, rfl⟩
        · cases h
  case isFalse hf => cases h

lemma processEntry_eq_some (extract : FileType → String → Except String String)
    (e : DirEntry) (hf : e.is_file = true)
    (ext0 : String) (hext : pathExtension e.file_name = some ext0)
    (ft : FileType) (hft : classify_file (to_lowercase ext0) = some ft)
    (c : String) (hok : extract ft e.file_name = Except.ok c) :
    processEntry extract e = some (ProcessedFile.mk e.file_name c) := by
  simp [processEntry, hf, hext, hft, hok]

lemma processEntry_eq_none_of_error
    (extract : FileType → String → Except String String)
    (e : DirEntry) (hf : e.is_file = true)
    (ext0 : String) (hext : pathExtension e.file_name = some ext0)
    (ft : FileType) (hft : classify_file (to_lowercase ext0) = some ft)
    (err : String) (herr : extract ft e.file_name = Except.error err) :
    processEntry extract e = none := by
  simp [processEntry, hf, hext, hft, herr]

lemma sortEntries_perm (l : List DirEntry) : (sortEntries l).Perm l :=
  List.mergeSort_perm l _

lemma sortEntries_sorted (l : List DirEntry) :
    (sortEntries l).Pairwise (fun a b => a.file_name ≤ b.file_name) := by
  have h := @List.sorted_mergeSort DirEntry
      (fun a b : DirEntry => decide (a.file_name ≤ b.file_name))
      (fun a b c hab hbc => by
        simp only [decide_eq_true_eq] at hab hbc ⊢
        exact le_trans hab hbc)
      (fun a b => by simpa using le_total a.file_name b.file_name)
      l
  exact h.imp (fun hab => by simpa using hab)

lemma filterMap_names_sublist (extract : FileType → String → Except String String)
    (l : List DirEntry) :
    ((l.filterMap (processEntry extract)).map ProcessedFile.name).Sublist
      (l.map DirEntry.file_name) := by
  induction l with
  | nil => simp
  | cons e t ih =>
    cases h : processEntry extract e with
    | none =>
      simp only [List.filterMap_cons, h, List.map_cons]
      exact ih.cons _
    | some pf =>
      simp only [List.filterMap_cons, h, List.map_cons]
      rw [(processEntry_some _ _ _ h).2]
      exact ih.cons₂ _

lemma sortEntries_eq_of_perm (l₁ l₂ : List DirEntry)
    (hp : l₁.Perm l₂) (hnd : (l₁.map DirEntry.file_name).Nodup) :
    sortEntries l₁ = sortEntries l₂ := by
  have hps₁ : (sortEntries l₁).Perm l₁ := sortEntries_perm l₁
  have hps₂ : (sortEntries l₂).Perm l₂ := sortEntries_perm l₂
  have hperm : (sortEntries l₁).Perm (sortEntries l₂) :=
    hps₁.trans (hp.trans hps₂.symm)
  have hnd₁ : ((sortEntries l₁).map DirEntry.file_name).Nodup :=
    ((hps₁.map DirEntry.file_name).nodup_iff).mpr hnd
  have hnd₂ : ((sortEntries l₂).map DirEntry.file_name).Nodup :=
    ((hps₂.map DirEntry.file_name).nodup_iff).mpr
      (((hp.map DirEntry.file_name).nodup_iff).mp hnd)
  have strict : ∀ l : List DirEntry,
      ((l.map DirEntry.file_name).Nodup) →
      l.Pairwise (fun a b => a.file_name ≤ b.file_name) →
      l.Pairwise (fun a b => a.file_name < b.file_name) := by
    intro l hnd' hle
    have hne : l.Pairwise (fun a b => a.file_name ≠ b.file_name) :=
      List.pairwise_map.mp hnd'
    exact (hle.and hne).imp (fun h => lt_of_le_of_ne h.1 h.2)
  haveI : IsAntisymm DirEntry (fun a b => a.file_name < b.file_name) :=
    ⟨fun a b hab hba => absurd (hab.trans hba) (lt_irrefl _)⟩
  exact List.eq_of_perm_of_sorted hperm
    (strict _ hnd₁ (sortEntries_sorted l₁))
    (strict _ hnd₂ (sortEntries_sorted l₂))

-- ---------------------------------------------------------------------------
-- Scanner claim theorems
-- ---------------------------------------------------------------------------

/-- Claim C3: with an existing directory the scan always succeeds, whatever
the per-file extraction outcomes; every file whose extraction succeeds is in
the result with its extracted content, and every file whose extraction fails
is excluded — a single failure eliminates only its own file. -/
theorem read_all_files_isolates_failures (dir : String)
    (entries : List DirEntry)
    (extract : FileType → String → Except String String)
    (hnd : (entries.map DirEntry.file_name).Nodup) :
    ∃ l, read_all_files dir true entries extract = Except.ok l ∧
      ∀ e ∈ entries, e.is_file = true →
        ∀ ext0, pathExtension e.file_name = some ext0 →
        ∀ ft, classify_file (to_lowercase ext0) = some ft →
          (∀ c, extract ft e.file_name = Except.ok c →
            ProcessedFile.mk e.file_name c ∈ l) ∧
          (∀ err, extract ft e.file_name = Except.error err →
            ∀ c, ProcessedFile.mk e.file_name c ∉ l) := by
  refine ⟨(sortEntries entries).filterMap (processEntry extract),
    by simp [read_all_files], ?_⟩
  intro e he hf ext0 hext ft hft
  constructor
  · intro c hok
    exact List.mem_filterMap.mpr
      ⟨e, ((sortEntries_perm entries).mem_iff).mpr he,
        processEntry_eq_some extract e hf ext0 hext ft hft c hok⟩
  · intro err herr c hmem
    obtain ⟨e', he', hsome⟩ := List.mem_filterMap.mp hmem
    have hname : e'.file_name = e.file_name :=
      ((processEntry_some _ _ _ hsome).2).symm
    have he'mem : e' ∈ entries := (sortEntries_perm entries).subset he'
    have heq : e' = e := List.inj_on_of_nodup_map hnd he'mem he hname
    subst heq
    rw [processEntry_eq_none_of_error extract e' hf ext0 hext ft hft err herr]
      at hsome
    cases hsome

theorem read_all_files_isolates_failures_witness :
    ∃ l, read_all_files "files" true
        [DirEntry.mk "doc.txt" true, DirEntry.mk "pic.jpg" true]
        (fun ft _ => match ft with
          | FileType.Text => Except.ok "a b c"
          | _ => Except.error "remote failure") = Except.ok l ∧
      ProcessedFile.mk "doc.txt" "a b c" ∈ l ∧
      ∀ c, ProcessedFile.mk "pic.jpg" c ∉ l := by
  obtain ⟨l, hok, h⟩ := read_all_files_isolates_failures "files"
      [DirEntry.mk "doc.txt" true, DirEntry.mk "pic.jpg" true]
      (fun ft _ => match ft with
        | FileType.Text => Except.ok "a b c"
        | _ => Except.error "remote failure")
      (by decide)
  refine ⟨l, hok, ?_, ?_⟩
  · exact (h (DirEntry.mk "doc.txt" true) (by decide) rfl
      "txt" (by decide) FileType.Text (by decide)).1 "a b c" rfl
  · intro c
    exact (h (DirEntry.mk "pic.jpg" true) (by decide) rfl
      "jpg" (by decide) FileType.Image (by decide)).2 "remote failure" rfl c

/-- Claim C4: the scan result is independent of the enumeration order of the
directory entries (for a real directory, whose entry names are distinct), it
keeps only regular files, and its output list is sorted by filename. -/
theorem read_all_files_deterministic_sorted (dir : String)
    (entries₁ entries₂ : List DirEntry)
    (extract : FileType → String → Except String String)
    (hp : entries₁.Perm entries₂)
    (hnd : (entries₁.map DirEntry.file_name).Nodup) :
    read_all_files dir true entries₁ extract
      = read_all_files dir true entries₂ extract ∧
    ∃ l, read_all_files dir true entries₁ extract = Except.ok l ∧
      (l.map ProcessedFile.name).Pairwise (fun a b => a ≤ b) ∧
      ∀ pf ∈ l, ∃ e ∈ entries₁, e.is_file = true ∧ pf.name = e.file_name := by
  constructor
  · simp only [read_all_files, if_true]
    rw [sortEntries_eq_of_perm entries₁ entries₂ hp hnd]
  · refine ⟨(sortEntries entries₁).filterMap (processEntry extract),
      by simp [read_all_files], ?_, ?_⟩
    · have hsorted : ((sortEntries entries₁).map DirEntry.file_name).Pairwise
          (fun a b => a ≤ b) :=
        List.pairwise_map.mpr (sortEntries_sorted entries₁)
      exact List.Pairwise.sublist
        (filterMap_names_sublist extract (sortEntries entries₁)) hsorted
    · intro pf hpf
      obtain ⟨e, he, hsome⟩ := List.mem_filterMap.mp hpf
      exact ⟨e, (sortEntries_perm entries₁).subset he,
        (processEntry_some _ _ _ hsome).1, (processEntry_some _ _ _ hsome).2⟩

theorem read_all_files_deterministic_sorted_witness :
    read_all_files "files" true
        [DirEntry.mk "b.txt" true, DirEntry.mk "a.txt" true]
        (fun _ _ => Except.ok "w")
      = read_all_files "files" true
        [DirEntry.mk "a.txt" true, DirEntry.mk "b.txt" true]
        (fun _ _ => Except.ok "w") ∧
    ∃ l, read_all_files "files" true
        [DirEntry.mk "b.txt" true, DirEntry.mk "a.txt" true]
        (fun _ _ => Except.ok "w") = Except.ok l ∧
      (l.map ProcessedFile.name).Pairwise (fun a b => a ≤ b) ∧
      ∀ pf ∈ l,
        ∃ e ∈ [DirEntry.mk "b.txt" true, DirEntry.mk "a.txt" true],
          e.is_file = true ∧ pf.name = e.file_name :=
  read_all_files_deterministic_sorted "files"
    [DirEntry.mk "b.txt" true, DirEntry.mk "a.txt" true]
    [DirEntry.mk "a.txt" true, DirEntry.mk "b.txt" true]
    (fun _ _ => Except.ok "w")
    (List.Perm.swap (DirEntry.mk "a.txt" true) (DirEntry.mk "b.txt" true) [])
    (by decide)

/-- Claim C9: scanning a non-existent directory fails with the
directory-not-found error, and the outcome is independent of the directory
contents and of the extraction oracle — no per-file processing occurs. -/
theorem read_all_files_fails_fast (dir : String) (entries : List DirEntry)
    (extract : FileType → String → Except String String) :
    read_all_files dir false entries extract
      = Except.error ("Directory " ++ dir ++ " does not exist") ∧
    ∀ (entries' : List DirEntry)
      (extract' : FileType → String → Except String String),
      read_all_files dir false entries extract
        = read_all_files dir false entries' extract' := by
  constructor
  · simp [read_all_files]
  · intro entries' extract'
    simp [read_all_files]
